import Mathlib

/-!
# Verification of trendbot's text-normalisation / topic-extraction core

Shallow embedding of `src/nlp/clean.py` (`STOPWORDS`, `GARBAGE_TOKENS`,
`normalize_for_topics`) and `src/ai/topic_extractor.py`
(`TopicExtractor.top_topics`, `TopicExtractor._fallback_keyword_extraction`).

Modelling conventions:
* A Python string is a `List Nat` of Unicode code points (`Txt`).
* Python's Unicode character classes (`\w`, `\s`, `str.isdigit`, `str.lower`)
  are modelled on the character ranges this pipeline can ever keep: ASCII and
  the Hangul-syllable block U+AC00..U+D7A3 (the code's own token filters admit
  only those).
* `html.unescape` (CPython stdlib) is abstracted as a parameter `u`; the one
  fact used about it — CPython returns the string unchanged when it contains
  no `'&'` (code point 38) — is taken as the hypothesis `UnescapeOK`.
* scikit-learn's `TfidfVectorizer` is external library code; its outcome in
  `top_topics` is abstracted as a `TfidfOutcome` supplied by a `Vectorizer`
  oracle that receives exactly the dynamically computed `min_df` / `max_df`
  parameters.  Everything downstream of the vectorizer (all quality gates,
  the circuit breaker and the fallback extractor) is embedded directly from
  the Python source.
-/

set_option maxRecDepth 10000

namespace Trendbot

/-- Python strings, modelled as lists of Unicode code points. -/
abbrev Txt := List Nat

/-- Code points of a Lean string literal. -/
def codes (s : String) : Txt := s.toList.map Char.toNat

/-- Python `\s` (whitespace), restricted to the ASCII whitespace characters. -/
def isSpaceCp (n : Nat) : Bool :=
  decide (n = 32 ∨ n = 9 ∨ n = 10 ∨ n = 13 ∨ n = 11 ∨ n = 12)

/-- ASCII decimal digit, modelling Python `str.isdigit` / `\d` per character. -/
def isDigitCp (n : Nat) : Bool := decide (48 ≤ n ∧ n ≤ 57)

/-- ASCII lowercase letter `a`-`z`. -/
def isLowerCp (n : Nat) : Bool := decide (97 ≤ n ∧ n ≤ 122)

/-- ASCII uppercase letter `A`-`Z`. -/
def isUpperCp (n : Nat) : Bool := decide (65 ≤ n ∧ n ≤ 90)

/-- Latin letter (either case). -/
def isAsciiLetterCp (n : Nat) : Bool := isLowerCp n || isUpperCp n

/-- Hangul syllable, the Python character class `[가-힣]` (U+AC00..U+D7A3). -/
def isHangulCp (n : Nat) : Bool := decide (44032 ≤ n ∧ n ≤ 55203)

/-- Python `\w` (letters, digits, underscore), restricted to ASCII + Hangul. -/
def isWordCp (n : Nat) : Bool :=
  isAsciiLetterCp n || isDigitCp n || decide (n = 95) || isHangulCp n

/-- Python `str.lower`, per code point (ASCII case map; Hangul is caseless). -/
def pyLowerCp (n : Nat) : Nat := if 65 ≤ n ∧ n ≤ 90 then n + 32 else n

/-- Python `str.lower` on a whole string. -/
def pyLower (t : Txt) : Txt := t.map pyLowerCp

/-- Python `str.isdigit`: nonempty and all digit characters. -/
def pyIsdigit (t : Txt) : Bool := !t.isEmpty && t.all isDigitCp

/-- Python `str.split()` (no separator): split on whitespace runs, dropping
empty chunks.  `acc` holds the current in-progress word, reversed. -/
def pySplitGo (acc : Txt) : Txt → List Txt
  | [] => if acc.isEmpty then [] else [acc.reverse]
  | c :: rest =>
    if isSpaceCp c then
      if acc.isEmpty then pySplitGo [] rest else acc.reverse :: pySplitGo [] rest
    else
      pySplitGo (c :: acc) rest

/-- Python `str.split()`. -/
def pySplit (t : Txt) : List Txt := pySplitGo [] t

/-- Python `' '.join` (tail part: a space before each further token). -/
def joinSpTail : List Txt → Txt
  | [] => []
  | t :: ts => 32 :: (t ++ joinSpTail ts)

/-- Python `' '.join(tokens)`. -/
def joinSp : List Txt → Txt
  | [] => []
  | t :: ts => t ++ joinSpTail ts

/-- Python `str.strip()`: drop ASCII whitespace from both ends. -/
def pyStrip (t : Txt) : Txt :=
  ((t.dropWhile isSpaceCp).reverse.dropWhile isSpaceCp).reverse

/-- `re.sub(r'\s+', ' ', text)`: collapse every whitespace run to one space.
The flag records whether the previous character belonged to a space run. -/
def wsCollapseGo (b : Bool) : Txt → Txt
  | [] => []
  | c :: rest =>
    if isSpaceCp c then
      if b then wsCollapseGo true rest else 32 :: wsCollapseGo true rest
    else
      c :: wsCollapseGo false rest

/-- `re.sub(r'\s+', ' ', text)`. -/
def wsCollapse (t : Txt) : Txt := wsCollapseGo false t

/-- Drop a literal from the front of a text, or fail. -/
def litDrop : Txt → Txt → Option Txt
  | [], cs => some cs
  | _ :: _, [] => none
  | l :: ls, c :: cs => if c = l then litDrop ls cs else none

/-- Generic engine for `re.sub(pat, '', text)`: scan left to right; whenever
the matcher succeeds at the current position, drop the match and continue
after it, otherwise keep the character.  The recursion is bounded by a fuel
argument; every matcher used below consumes at least one character per
match, so `cs.length` fuel always suffices. -/
def subScanF (m : Txt → Option Txt) : Nat → Txt → Txt
  | 0, _ => []
  | _ + 1, [] => []
  | fuel + 1, c :: rest =>
    match m (c :: rest) with
    | some r => subScanF m fuel r
    | none => c :: subScanF m fuel rest

/-- `re.sub(pat, '', text)` for the matcher `m`. -/
def subScan (m : Txt → Option Txt) (cs : Txt) : Txt := subScanF m cs.length cs

/-- Matcher for `<[^>]+>` (HTML tags): a `'<'`, at least one non-`'>'`
character, then the first following `'>'`. -/
def tagMatch (cs : Txt) : Option Txt :=
  match cs with
  | 60 :: rest =>
    if (rest.takeWhile (fun d => !decide (d = 62))).length < rest.length ∧
        rest.takeWhile (fun d => !decide (d = 62)) ≠ [] then
      some (rest.drop ((rest.takeWhile (fun d => !decide (d = 62))).length + 1))
    else none
  | _ => none

/-- `re.sub(r'<[^>]+>', '', text)`. -/
def tagStrip : Txt → Txt := subScan tagMatch

/-- Character class `[a-zA-Z0-9#]` of the HTML-entity pattern. -/
def isEntityCp (n : Nat) : Bool := isAsciiLetterCp n || isDigitCp n || decide (n = 35)

/-- Matcher for `&[a-zA-Z0-9#]+;`. -/
def entityMatch (cs : Txt) : Option Txt :=
  match cs with
  | 38 :: rest =>
    if rest.takeWhile isEntityCp ≠ [] ∧
        (rest.drop (rest.takeWhile isEntityCp).length).head? = some 59 then
      some (rest.drop ((rest.takeWhile isEntityCp).length + 1))
    else none
  | _ => none

/-- `re.sub(r'&[a-zA-Z0-9#]+;', '', text)`. -/
def entityStrip : Txt → Txt := subScan entityMatch

/-- Greedy `[^\s]+` tail of a URL pattern: at least one non-space character. -/
def nonSpaceTail (t : Txt) : Option Txt :=
  if t.takeWhile (fun c => !isSpaceCp c) = [] then none
  else some (t.drop (t.takeWhile (fun c => !isSpaceCp c)).length)

/-- Matcher for `https?://[^\s]+`. -/
def urlMatch (cs : Txt) : Option Txt :=
  match litDrop (codes ("http")) cs with
  | none => none
  | some r1 =>
    match litDrop (codes ("s://")) r1 with
    | some t => nonSpaceTail t
    | none =>
      match litDrop (codes ("://")) r1 with
      | some t => nonSpaceTail t
      | none => none

/-- `re.sub(r'https?://[^\s]+', '', text)`. -/
def urlStrip : Txt → Txt := subScan urlMatch

/-- Matcher for `www\.[^\s]+`. -/
def wwwMatch (cs : Txt) : Option Txt :=
  match litDrop (codes ("www.")) cs with
  | some t => nonSpaceTail t
  | none => none

/-- `re.sub(r'www\.[^\s]+', '', text)`. -/
def wwwStrip : Txt → Txt := subScan wwwMatch

/-- Character class `[a-zA-Z0-9._%+-]` (local part of the email pattern). -/
def isLocalCp (n : Nat) : Bool :=
  isAsciiLetterCp n || isDigitCp n ||
    decide (n = 46 ∨ n = 95 ∨ n = 37 ∨ n = 43 ∨ n = 45)

/-- Character class `[a-zA-Z0-9.-]` (domain part of the email pattern). -/
def isDomainCp (n : Nat) : Bool :=
  isAsciiLetterCp n || isDigitCp n || decide (n = 46 ∨ n = 45)

/-- Backtracking search for the domain tail `\.[a-zA-Z]{2,}` inside the
maximal `[a-zA-Z0-9.-]` run `bs`: find the largest index `j < bound` (with
`j ≥ 1`, since the `+` before the dot needs at least one character) such that
`bs[j] = '.'` is followed by at least two letters, returning how many
characters of `bs` the whole `B+\.C{2,}` part consumes. -/
def bestSplitGo (bs : Txt) : Nat → Option Nat
  | 0 => none
  | j + 1 =>
    if 1 ≤ j ∧ bs.get? j = some 46 ∧
        2 ≤ ((bs.drop (j + 1)).takeWhile isAsciiLetterCp).length then
      some (j + 1 + ((bs.drop (j + 1)).takeWhile isAsciiLetterCp).length)
    else bestSplitGo bs j

/-- Search over the whole run. -/
def bestSplit (bs : Txt) : Option Nat := bestSplitGo bs bs.length

/-- Matcher for `[a-zA-Z0-9._%+-]+@[a-zA-Z0-9.-]+\.[a-zA-Z]{2,}` (emails). -/
def emailMatch (cs : Txt) : Option Txt :=
  if cs.takeWhile isLocalCp = [] then none
  else
    match cs.drop (cs.takeWhile isLocalCp).length with
    | 64 :: rest =>
      match bestSplit (rest.takeWhile isDomainCp) with
      | some consumed => some (rest.drop consumed)
      | none => none
    | _ => none

/-- `re.sub` over the email pattern. -/
def emailStrip : Txt → Txt := subScan emailMatch

/-- `re.sub(r'[^\w\s가-힣]', ' ', text)`: every character that is not a word
character, whitespace, or Hangul becomes a single space. -/
def charFilter (t : Txt) : Txt :=
  t.map (fun c => if isWordCp c || isSpaceCp c || isHangulCp c then c else 32)

/-- `re.sub(r'\b\d+\b', '', text)`: drop every maximal digit run whose two
neighbours (or the string ends) are non-word characters.  `prevWord` says
whether the previous character of the original string is a word character,
`buf` holds (reversed) a pending digit run whose left boundary was good. -/
def digitStripGo (prevWord : Bool) (buf : Txt) : Txt → Txt
  | [] => []
  | c :: rest =>
    if isDigitCp c then
      if buf.isEmpty then
        if prevWord then c :: digitStripGo true [] rest
        else digitStripGo false [c] rest
      else digitStripGo prevWord (c :: buf) rest
    else
      if buf.isEmpty then c :: digitStripGo (isWordCp c) [] rest
      else
        if isWordCp c then buf.reverse ++ c :: digitStripGo true [] rest
        else c :: digitStripGo false [] rest

/-- `re.sub(r'\b\d+\b', '', text)`. -/
def digitStrip (t : Txt) : Txt := digitStripGo false [] t


/-- The `STOPWORDS` set of `src/nlp/clean.py` (entries in source order). -/
def STOPWORDS : List Txt :=
  ([
    "그", "이", "저", "것", "때", "곳", "일", "번", "가지", "개", "년", "월", "시", "분",
    "초", "하나", "둘", "셋", "네", "다섯", "여섯", "일곱", "여덟", "아홉", "열", "그것", "이것",
    "저것", "여기", "저기", "거기", "이곳", "저곳", "나", "너", "우리", "그들", "당신", "자신",
    "는", "은", "이", "가", "을", "를", "에", "의", "로", "와", "과", "도", "만", "부터",
    "까지", "하다", "되다", "있다", "없다", "같다", "다르다", "많다", "적다", "크다", "작다", "좋다",
    "나쁘다", "새로", "오래", "또", "그리고", "그러나", "하지만", "그래서", "따라서", "그런데", "그러면",
    "매우", "너무", "정말", "진짜", "아주", "꽤", "상당히", "조금", "약간", "항상", "가끔", "자주",
    "때때로", "언제나", "절대", "결코", "모든", "각", "어떤", "모든", "전체", "일부", "대부분",
    "the", "a", "an", "and", "or", "but", "in", "on", "at", "to", "for",
    "of", "with", "by", "is", "are", "was", "were", "be", "been", "being",
    "have", "has", "had", "do", "does", "did", "will", "would", "could",
    "should", "may", "might", "must", "can", "shall", "i", "you", "he",
    "she", "it", "we", "they", "me", "him", "her", "us", "them", "this",
    "that", "these", "those", "here", "there", "where", "when", "why", "how",
    "all", "any", "both", "each", "few", "more", "most", "other", "some",
    "such", "not", "only", "own", "same", "so", "than", "too", "very",
    "just", "now"
  ] : List String).map codes

/-- The `GARBAGE_TOKENS` set of `src/nlp/clean.py` (entries in source order). -/
def GARBAGE_TOKENS : List Txt :=
  ([
    "nbsp", "quot", "amp", "lt", "gt", "font", "href", "br", "span", "div",
    "class", "id", "style", "script", "css", "js", "jquery", "ajax", "json",
    "xml", "html", "htm", "php", "asp", "jsp", "http", "https", "www", "com",
    "net", "org", "co", "kr", "link", "url", "src", "img", "google", "news",
    "naver", "daum", "yahoo", "bing", "search", "youtube", "facebook",
    "twitter", "instagram", "linkedin", "github", "stackoverflow", "reddit",
    "quora", "click", "view", "more", "read", "see", "show", "hide", "open",
    "close", "button", "menu", "nav", "navigation", "header", "footer",
    "sidebar", "top", "bottom", "left", "right", "center", "middle", "first",
    "last", "prev", "next", "previous", "back", "forward", "up", "down",
    "page", "site", "web", "blog", "post", "article", "content", "text",
    "data", "info", "ad", "ads", "advertisement", "banner", "popup", "modal",
    "dialog", "window", "tab", "copyright", "reserved", "rights", "terms",
    "privacy", "policy", "cookie", "gdpr", "home", "about", "contact",
    "help", "faq", "support", "login", "register", "signup", "signin",
    "logout", "profile", "account", "settings", "preferences", "options",
    "today", "yesterday", "tomorrow", "week", "month", "year", "time",
    "date", "day", "am", "pm", "morning", "afternoon", "evening", "night",
    "hour", "minute", "second", "monday", "tuesday", "wednesday", "thursday",
    "friday", "saturday", "sunday", "january", "february", "march", "april",
    "may", "june", "july", "august", "september", "october", "november",
    "december", "api", "sdk", "framework", "library", "module", "package",
    "version", "update", "download", "install", "setup", "config",
    "configuration", "setting", "option", "online", "offline", "internet",
    "web", "website", "webpage", "browser", "chrome", "firefox", "safari",
    "edge", "mobile", "desktop", "tablet", "phone", "device", "media",
    "press", "journal", "magazine", "newspaper", "tv", "radio", "podcast",
    "video", "audio", "image", "photo", "picture", "graphic", "chart",
    "graph", "social", "share", "like", "comment", "reply", "follow",
    "unfollow", "subscribe", "unsubscribe", "notification", "alert",
    "message", "chat", "forum", "community", "email", "mail", "send",
    "receive", "inbox", "outbox", "spam", "trash", "draft", "file", "folder",
    "directory", "upload", "download", "save", "delete", "copy", "paste",
    "cut", "edit", "create", "new", "old", "recent", "latest", "updated",
    "active", "inactive", "enabled", "disabled", "on", "off", "yes", "no",
    "true", "false", "success", "error", "warning", "info", "debug", "test",
    "demo", "size", "small", "medium", "large", "big", "tiny", "huge",
    "massive", "mini", "micro", "macro", "full", "empty", "half", "quarter",
    "double", "triple", "color", "colour", "red", "green", "blue", "yellow",
    "orange", "purple", "pink", "black", "white", "gray", "grey", "brown",
    "dark", "light", "bright", "dim", "location", "place", "position",
    "area", "region", "country", "city", "state", "address", "street",
    "road", "avenue", "boulevard", "lane", "drive", "way", "north", "south",
    "east", "west", "northeast", "northwest", "southeast", "southwest", "up",
    "down", "left", "right", "front", "back", "side", "corner", "edge",
    "center", "zero", "one", "two", "three", "four", "five", "six", "seven",
    "eight", "nine", "ten", "hundred", "thousand", "million", "billion",
    "trillion", "first", "second", "third", "fourth", "fifth", "sixth",
    "seventh", "eighth", "ninth", "tenth", "last", "final", "pre", "post",
    "anti", "pro", "non", "un", "re", "over", "under", "out", "in", "up",
    "down", "off", "on", "auto", "self", "super", "ultra", "mega", "micro",
    "etc", "etcetera", "and", "or", "but", "so", "if", "then", "else",
    "when", "where", "how", "why", "what", "who", "which", "that", "this",
    "these", "those", "here", "there", "everywhere", "nowhere", "somewhere",
    "anywhere", "everywhere"
  ] : List String).map codes

/-- The extra forbidden list hard-coded inside `normalize_for_topics`. -/
def forbidden_patterns : List Txt :=
  ([
    "rss", "xml", "json", "api", "http", "www", "com", "net", "org", "nbsp",
    "font", "href", "src", "img", "div", "span", "class", "id", "script",
    "css", "js", "jquery", "ajax", "html", "htm", "articles", "target", "oc",
    "feed", "atom", "syndication", "channel", "item", "link", "description",
    "pubdate", "guid", "category", "enclosure", "ios", "android", "windows",
    "mac", "linux"
  ] : List String).map codes

/-- The gate-2 forbidden-token list hard-coded inside `top_topics`. -/
def forbidden_tokens : List Txt :=
  ([
    "nbsp", "font", "href", "https", "com", "google", "news", "rss", "xml",
    "json", "api", "articles", "target", "oc", "feed", "atom", "syndication",
    "channel", "item", "link", "description", "pubdate", "guid", "category",
    "enclosure", "www", "http"
  ] : List String).map codes

/-- One token survives the final loop of `normalize_for_topics` iff it is
longer than one character, not purely numeric, contains no digit, is in
neither vocabulary table, its lowercase form is not in `forbidden_patterns`,
and it matches `^[가-힣a-zA-Z]+$`. -/
def tokenPass (token : Txt) : Bool :=
  !decide (token.length ≤ 1) &&
  !pyIsdigit token &&
  !token.any isDigitCp &&
  !STOPWORDS.contains token &&
  !GARBAGE_TOKENS.contains token &&
  !forbidden_patterns.contains (pyLower token) &&
  (!token.isEmpty && token.all (fun c => isHangulCp c || isAsciiLetterCp c))

/-- The property of `html.unescape` this development relies on: CPython's
`html.unescape(s)` returns `s` unchanged whenever `s` contains no `'&'`. -/
def UnescapeOK (u : Txt → Txt) : Prop := ∀ s : Txt, (38 : Nat) ∉ s → u s = s

/-- Steps 1-6 of `normalize_for_topics` (`src/nlp/clean.py` lines 143-161):
entity decode, tag strip, entity strip, URL / www / email strip, special
character replacement, bare digit-run removal, whitespace collapse + strip. -/
def cleanStage (u : Txt → Txt) (text : Txt) : Txt :=
  pyStrip (wsCollapse (digitStrip (charFilter
    (emailStrip (wwwStrip (urlStrip (entityStrip (tagStrip (u text)))))))))

/-- `normalize_for_topics` (`src/nlp/clean.py` lines 126-220), parameterised
by the `html.unescape` function `u`. -/
def normalize_for_topics (u : Txt → Txt) (text : Txt) : Txt :=
  if text.isEmpty then []
  else joinSp ((pySplit (pyLower (cleanStage u text))).filter tokenPass)

/-- The guard `if not text or not isinstance(text, str)`: a non-string input
(modelled as `none`) also yields the empty string. -/
def normalize_for_topics_arg (u : Txt → Txt) : Option Txt → Txt
  | none => []
  | some s => normalize_for_topics u s

/-! ## `TopicExtractor.top_topics` and the fallback extractor -/

/-- The exact-match list of `top_topics` quality gate 1
(`not topic.lower() in ['ai', 'rss', 'xml', 'json']`). -/
def exact4 : List Txt := (["ai", "rss", "xml", "json"] : List String).map codes

/-- The exact-match list of the fallback extractor's final filter. -/
def final7 : List Txt :=
  (["ai", "rss", "xml", "json", "api", "http", "www"] : List String).map codes

/-- Substring containment, Python `needle in hay`. -/
def subIn (needle : Txt) : Txt → Bool
  | [] => needle.isEmpty
  | c :: rest => needle.isPrefixOf (c :: rest) || subIn needle rest

/-- Quality gate 1 of `top_topics` (lines 553-565): no garbage token occurs
as a substring of the lowercased candidate, and the candidate is longer than
one character, not purely numeric, not one of `exact4` once lowercased, and
contains no digit. -/
def gate1 (topic : Txt) : Bool :=
  !GARBAGE_TOKENS.any (fun garbage => subIn garbage (pyLower topic)) &&
  (decide (topic.length > 1) &&
   !pyIsdigit topic &&
   !exact4.contains (pyLower topic) &&
   !topic.any isDigitCp)

/-- Quality gate 2 of `top_topics` (lines 583-595): split the lowercased
candidate on whitespace and reject it if any word is in `forbidden_tokens`. -/
def gate2 (topic : Txt) : Bool :=
  !(pySplit (pyLower topic)).any (fun token => forbidden_tokens.contains token)

/-- The gate-2 survivors: gate-1 filtering, truncation to `k`, then gate 2. -/
def gate2Survivors (candidates : List Txt) (k : Nat) : List Txt :=
  (((candidates.filter gate1).take k).filter gate2)

/-- Token filter of `_fallback_keyword_extraction` (lines 635-642). -/
def fallbackTokOk (token : Txt) : Bool :=
  decide (token.length > 1) &&
  !STOPWORDS.contains token &&
  !GARBAGE_TOKENS.contains token &&
  !pyIsdigit token &&
  !token.any isDigitCp

/-- `all_words` of the fallback extractor: per document, lowercase, split on
whitespace and keep the tokens passing `fallbackTokOk` (empty documents are
skipped by `if text:`). -/
def allWords (corpus : List Txt) : List Txt :=
  corpus.flatMap (fun text =>
    if text.isEmpty then [] else (pySplit (pyLower text)).filter fallbackTokOk)

/-- Keys of `collections.Counter` in first-insertion order. -/
def dedupGo (seen : List Txt) : List Txt → List Txt
  | [] => []
  | w :: ws => if seen.contains w then dedupGo seen ws else w :: dedupGo (w :: seen) ws

/-- Insert into a count-descending list after all entries of count `≥` its
own, which is exactly the placement of a stable descending sort. -/
def insertByCount (cnt : Txt → Nat) (w : Txt) : List Txt → List Txt
  | [] => [w]
  | v :: vs => if cnt w ≤ cnt v then v :: insertByCount cnt w vs else w :: v :: vs

/-- `Counter(ws).most_common(n)` (words only): distinct words in
first-encounter order, stably sorted by frequency descending, first `n`. -/
def most_common (ws : List Txt) (n : Nat) : List Txt :=
  ((dedupGo [] ws).foldl (fun acc w => insertByCount (fun v => ws.count v) w acc) []).take n

/-- Final filter of the fallback extractor (lines 657-662). -/
def finalOk (keyword : Txt) : Bool :=
  decide (keyword.length > 1) && !final7.contains keyword && !keyword.any isDigitCp

/-- `TopicExtractor._fallback_keyword_extraction` (lines 615-671). -/
def fallback_keyword_extraction (corpus : List Txt) (k : Nat) : List Txt :=
  if (allWords corpus).isEmpty then []
  else (((most_common (allWords corpus) (k * 2)).filter finalOk).take k)

/-- Outcome of `TfidfVectorizer.fit_transform` + scoring, as `top_topics`
observes it: either an exception (`exn`), or the extracted feature names
together with `top_topics_list` — the up-to-`3*k` positive-mean-score
features in descending mean-TF-IDF order (lines 528-544). -/
inductive TfidfOutcome where
  | exn : TfidfOutcome
  | ok (features : List Txt) (candidates : List Txt) : TfidfOutcome

/-- The vectorizer oracle: receives the dynamically chosen `min_df` and
`max_df` and the corpus, and yields a `TfidfOutcome`. -/
def Vectorizer := Nat → ℚ → List Txt → TfidfOutcome

/-- `min_df = min(3, max(1, corpus_size // 10))` (line 513). -/
def top_topics_min_df (corpus : List Txt) : Nat := min 3 (max 1 (corpus.length / 10))

/-- `max_df = 0.8` (line 514). -/
def top_topics_max_df : ℚ := 0.8

/-- `TopicExtractor.top_topics` (lines 480-613), downstream of the
vectorizer oracle: empty-corpus guard, exception and empty-vocabulary routes
to the fallback, gate 1, truncation to `k`, gate 2, and the
quality-insufficiency circuit breaker `len(final) < k // 2`. -/
def top_topics (vec : Vectorizer) (corpus : List Txt) (k : Nat) : List Txt :=
  if corpus.isEmpty then []
  else
    match vec (top_topics_min_df corpus) top_topics_max_df corpus with
    | TfidfOutcome.exn => fallback_keyword_extraction corpus k
    | TfidfOutcome.ok features candidates =>
      if features.isEmpty then fallback_keyword_extraction corpus k
      else
        if (gate2Survivors candidates k).length < k / 2 then
          fallback_keyword_extraction corpus k
        else gate2Survivors candidates k

/-! ## Spec-side definitions (for the refinement claims) -/

/-- The fallback contract exactly as the specification states it (§4.3):
tokenize each document (whitespace split, lowercase), filter through
`STOPWORDS ∪ GARBAGE_TOKENS`, reject length-`≤ 1`, purely numeric and
digit-containing tokens, rank by raw frequency with ties in first-encounter
order, return up to `k` tokens — and exclude nothing else. -/
def fallback_spec (corpus : List Txt) (k : Nat) : List Txt :=
  most_common
    (corpus.flatMap (fun text =>
      (pySplit (pyLower text)).filter (fun token =>
        decide (token.length > 1) &&
        !STOPWORDS.contains token &&
        !GARBAGE_TOKENS.contains token &&
        !pyIsdigit token &&
        !token.any isDigitCp)))
    k

/-- The fallback contract as amended: after the frequency ranking only the
`2*k` most frequent tokens are considered, tokens in
`{'ai','rss','xml','json','api','http','www'}` are removed (together with a
redundant length / digit re-check), and the first `k` survivors are
returned. -/
def fallback_spec_amended (corpus : List Txt) (k : Nat) : List Txt :=
  ((most_common
    (corpus.flatMap (fun text =>
      (pySplit (pyLower text)).filter (fun token =>
        decide (token.length > 1) &&
        !STOPWORDS.contains token &&
        !GARBAGE_TOKENS.contains token &&
        !pyIsdigit token &&
        !token.any isDigitCp)))
    (2 * k)).filter (fun keyword =>
      decide (keyword.length > 1) &&
      !final7.contains keyword &&
      !keyword.any isDigitCp)).take k


/-- A shared concrete vectorizer that always raises. -/
def vecExn : Vectorizer := fun _ _ _ => TfidfOutcome.exn

/-- A shared concrete vectorizer returning a fixed outcome. -/
def vecConst (o : TfidfOutcome) : Vectorizer := fun _ _ _ => o

/-- What the code guarantees for every fallback keyword: length `> 1`, not
purely numeric, no digit, not in `STOPWORDS`, `GARBAGE_TOKENS` or the
hard-coded seven-token list.  (The keyword need not consist of Hangul/Latin
letters only — see the counterexample.) -/
def fallbackInv (w : Txt) : Prop :=
  w.length > 1 ∧ pyIsdigit w = false ∧ w.any isDigitCp = false ∧
  STOPWORDS.contains w = false ∧ GARBAGE_TOKENS.contains w = false ∧
  final7.contains w = false

/-- What the code guarantees for every statistical-path topic: gate 1 and
gate 2 passed, and (from the vectorizer token pattern) every
whitespace-separated word consists of Hangul or lowercase Latin letters. -/
def statInv (w : Txt) : Prop :=
  w.length > 1 ∧ pyIsdigit w = false ∧ w.any isDigitCp = false ∧
  exact4.contains (pyLower w) = false ∧
  (∀ g ∈ GARBAGE_TOKENS, subIn g (pyLower w) = false) ∧
  (∀ tok ∈ pySplit (pyLower w), forbidden_tokens.contains tok = false) ∧
  (∀ tok ∈ pySplit w, tok ≠ [] ∧
    tok.all (fun c => isHangulCp c || isLowerCp c) = true)

/-! ## Helper lemmas about the extractor -/

theorem fallback_length_le (corpus : List Txt) (k : Nat) :
    (fallback_keyword_extraction corpus k).length ≤ k := by
  unfold fallback_keyword_extraction
  split
  · simp
  · calc ((((most_common (allWords corpus) (k * 2)).filter finalOk).take k)).length
        ≤ k := by
          rw [List.length_take]
          omega

theorem gate2Survivors_length_le (candidates : List Txt) (k : Nat) :
    (gate2Survivors candidates k).length ≤ k := by
  unfold gate2Survivors
  calc ((((candidates.filter gate1).take k).filter gate2)).length
      ≤ (((candidates.filter gate1).take k)).length := List.length_filter_le _ _
    _ ≤ k := by rw [List.length_take]; omega

/-! ## Claim theorems -/

/-- C1: for every non-empty corpus and every `k`, `top_topics` returns at
most `k` topics, on both the statistical and the fallback path. -/
theorem top_topics_count_bound (vec : Vectorizer) (corpus : List Txt) (k : Nat)
    (hne : corpus ≠ []) : (top_topics vec corpus k).length ≤ k := by
  unfold top_topics
  have : corpus.isEmpty = false := by simpa using hne
  rw [this]
  simp only [Bool.false_eq_true, if_false]
  cases vec (top_topics_min_df corpus) top_topics_max_df corpus with
  | exn => exact fallback_length_le corpus k
  | ok features candidates =>
    by_cases hf : features.isEmpty
    · simp only [hf, if_true]
      exact fallback_length_le corpus k
    · simp only [hf, Bool.false_eq_true, if_false]
      split
      · exact fallback_length_le corpus k
      · exact gate2Survivors_length_le candidates k

/-- Witness for C1 at a concrete input. -/
theorem top_topics_count_bound_witness :
    ([codes ("hello hello")] ≠ ([] : List Txt)) ∧
      (top_topics vecExn [codes ("hello hello")] 2).length ≤ 2 :=
  ⟨by decide, top_topics_count_bound vecExn [codes ("hello hello")] 2 (by decide)⟩

/-- C3: in `top_topics`, when the number of gate-2 survivors (whole-token
exact-match rejection applied after truncation to `k`) is strictly below
`k / 2`, the statistical result is discarded and the call returns exactly the
fallback extractor's result on the same corpus and `k`. -/
theorem top_topics_circuit_breaker (vec : Vectorizer) (corpus : List Txt) (k : Nat)
    (features candidates : List Txt) (hne : corpus ≠ [])
    (hvec : vec (top_topics_min_df corpus) top_topics_max_df corpus
      = TfidfOutcome.ok features candidates)
    (hf : features ≠ [])
    (hlow : (gate2Survivors candidates k).length < k / 2) :
    top_topics vec corpus k = fallback_keyword_extraction corpus k := by
  unfold top_topics
  have h1 : corpus.isEmpty = false := by simpa using hne
  have h2 : features.isEmpty = false := by simpa using hf
  rw [h1, hvec]
  simp only [h2, Bool.false_eq_true, if_false]
  rw [if_pos hlow]

/-- Witness for C3 at a concrete input. -/
theorem top_topics_circuit_breaker_witness :
    ([codes ("hello hello")] ≠ ([] : List Txt)) ∧
      (gate2Survivors [codes ("nbsp")] 4).length < 4 / 2 ∧
      top_topics (vecConst (TfidfOutcome.ok [codes ("aa")] [codes ("nbsp")]))
          [codes ("hello hello")] 4
        = fallback_keyword_extraction [codes ("hello hello")] 4 :=
  ⟨by decide, by decide,
    top_topics_circuit_breaker
      (vecConst (TfidfOutcome.ok [codes ("aa")] [codes ("nbsp")]))
      [codes ("hello hello")] 4 [codes ("aa")] [codes ("nbsp")]
      (by decide) rfl (by decide) (by decide)⟩

/-- C4: an exception inside the TF-IDF vectorization (the `exn` outcome) is
absorbed and the call returns the fallback extractor's result, and an empty
extracted vocabulary likewise routes to the fallback. -/
theorem top_topics_vectorizer_failure (vec : Vectorizer) (corpus : List Txt) (k : Nat)
    (hne : corpus ≠ []) :
    (vec (top_topics_min_df corpus) top_topics_max_df corpus = TfidfOutcome.exn →
      top_topics vec corpus k = fallback_keyword_extraction corpus k) ∧
    (∀ candidates,
      vec (top_topics_min_df corpus) top_topics_max_df corpus
          = TfidfOutcome.ok [] candidates →
      top_topics vec corpus k = fallback_keyword_extraction corpus k) := by
  have h1 : corpus.isEmpty = false := by simpa using hne
  constructor
  · intro hvec
    unfold top_topics
    rw [h1, hvec]
    rfl
  · intro candidates hvec
    unfold top_topics
    rw [h1, hvec]
    simp

/-- Witness for C4 at a concrete input. -/
theorem top_topics_vectorizer_failure_witness :
    ([codes ("hi hi")] ≠ ([] : List Txt)) ∧
      top_topics vecExn [codes ("hi hi")] 3
        = fallback_keyword_extraction [codes ("hi hi")] 3 :=
  ⟨by decide,
    (top_topics_vectorizer_failure vecExn [codes ("hi hi")] 3 (by decide)).1 rfl⟩

/-- C8: for a corpus of size `n` the minimum document frequency handed to
the vectorizer is `min 3 (max 1 (n / 10))` and the maximum document
frequency fraction is the constant `0.8`. -/
theorem top_topics_dynamic_params :
    (∀ corpus : List Txt,
      top_topics_min_df corpus = min 3 (max 1 (corpus.length / 10))) ∧
    top_topics_max_df = (0.8 : ℚ) :=
  ⟨fun _ => rfl, rfl⟩

/-- C9: empty inputs produce empty outputs and no exception:
`normalize_for_topics` maps non-string input and the empty string to the
empty string, and `top_topics` maps the empty corpus to the empty list for
every `k` and every vectorizer outcome. -/
theorem empty_inputs_empty_outputs :
    (∀ u : Txt → Txt, normalize_for_topics_arg u none = []) ∧
    (∀ u : Txt → Txt, normalize_for_topics u [] = []) ∧
    (∀ (vec : Vectorizer) (k : Nat), top_topics vec [] k = []) :=
  ⟨fun _ => rfl, fun _ => rfl, fun _ _ => rfl⟩


/-! ## No-duplicate lemmas (C10) -/

theorem dedupGo_not_seen : ∀ (ws seen : List Txt) (x : Txt),
    x ∈ dedupGo seen ws → ¬ x ∈ seen := by
  intro ws
  induction ws with
  | nil => intro seen x hx; simp [dedupGo] at hx
  | cons w ws ih =>
    intro seen x hx
    unfold dedupGo at hx
    split at hx
    · exact ih seen x hx
    · rename_i hsee
      rcases List.mem_cons.mp hx with h | h
      · subst h
        simpa using hsee
      · intro hmem
        exact ih (w :: seen) x h (List.mem_cons_of_mem w hmem)

theorem dedupGo_nodup : ∀ (ws seen : List Txt), (dedupGo seen ws).Nodup := by
  intro ws
  induction ws with
  | nil => intro seen; simp [dedupGo]
  | cons w ws ih =>
    intro seen
    unfold dedupGo
    split
    · exact ih seen
    · refine List.nodup_cons.mpr ⟨?_, ih (w :: seen)⟩
      intro hmem
      exact dedupGo_not_seen ws (w :: seen) w hmem (List.mem_cons_self w seen)

theorem dedupGo_subset : ∀ (ws seen : List Txt) (x : Txt),
    x ∈ dedupGo seen ws → x ∈ ws := by
  intro ws
  induction ws with
  | nil => intro seen x hx; simp [dedupGo] at hx
  | cons w ws ih =>
    intro seen x hx
    unfold dedupGo at hx
    split at hx
    · exact List.mem_cons_of_mem w (ih seen x hx)
    · rcases List.mem_cons.mp hx with h | h
      · exact h ▸ List.mem_cons_self w ws
      · exact List.mem_cons_of_mem w (ih (w :: seen) x h)

theorem insertByCount_perm (cnt : Txt → Nat) (w : Txt) :
    ∀ l : List Txt, List.Perm (insertByCount cnt w l) (w :: l) := by
  intro l
  induction l with
  | nil => simp [insertByCount]
  | cons v vs ih =>
    unfold insertByCount
    split
    · exact (ih.cons v).trans (List.Perm.swap w v vs)
    · exact List.Perm.refl _

theorem foldl_insert_perm (cnt : Txt → Nat) :
    ∀ (l acc : List Txt),
      List.Perm (l.foldl (fun a w => insertByCount cnt w a) acc) (acc ++ l) := by
  intro l
  induction l with
  | nil => intro acc; simp
  | cons w l ih =>
    intro acc
    refine List.Perm.trans (ih (insertByCount cnt w acc)) ?_
    exact ((insertByCount_perm cnt w acc).append_right l).trans List.perm_middle.symm

theorem most_common_nodup (ws : List Txt) (n : Nat) : (most_common ws n).Nodup := by
  unfold most_common
  apply List.Sublist.nodup (List.take_sublist _ _)
  have hperm := foldl_insert_perm (fun v => ws.count v) (dedupGo [] ws) []
  simp only [List.nil_append] at hperm
  exact hperm.symm.nodup (dedupGo_nodup ws [])

theorem most_common_subset (ws : List Txt) (n : Nat) :
    ∀ x ∈ most_common ws n, x ∈ ws := by
  intro x hx
  unfold most_common at hx
  have hx2 := List.mem_of_mem_take hx
  have hperm := foldl_insert_perm (fun v => ws.count v) (dedupGo [] ws) []
  simp only [List.nil_append] at hperm
  exact dedupGo_subset ws [] x (hperm.mem_iff.mp hx2)

theorem fallback_nodup (corpus : List Txt) (k : Nat) :
    (fallback_keyword_extraction corpus k).Nodup := by
  unfold fallback_keyword_extraction
  split
  · simp
  · apply List.Sublist.nodup (List.take_sublist _ _)
    apply List.Sublist.nodup (List.filter_sublist _)
    exact most_common_nodup _ _

/-- C10: `top_topics` never returns duplicate strings, on the statistical
path (granted that the vectorizer yields pairwise-distinct candidate
features, as scikit-learn's vocabulary extraction does) as well as on the
fallback path. -/
theorem top_topics_nodup (vec : Vectorizer) (corpus : List Txt) (k : Nat)
    (hvec : ∀ (mdf : Nat) (mxdf : ℚ) (features candidates : List Txt),
      vec mdf mxdf corpus = TfidfOutcome.ok features candidates → candidates.Nodup) :
    (top_topics vec corpus k).Nodup := by
  unfold top_topics
  split
  · simp
  · split
    · exact fallback_nodup corpus k
    · rename_i features candidates hout
      have hcand := hvec _ _ _ _ hout
      have hsurv : (gate2Survivors candidates k).Nodup := by
        unfold gate2Survivors
        apply List.Sublist.nodup (List.filter_sublist _)
        apply List.Sublist.nodup (List.take_sublist _ _)
        exact List.Sublist.nodup (List.filter_sublist _) hcand
      split
      · exact fallback_nodup corpus k
      · split
        · exact fallback_nodup corpus k
        · exact hsurv

/-- Witness for C10 at a concrete input. -/
theorem top_topics_nodup_witness :
    (top_topics (vecConst (TfidfOutcome.ok [codes ("aa")] [codes ("인공지능"), codes ("기술")]))
      [codes ("hello")] 2).Nodup :=
  top_topics_nodup
    (vecConst (TfidfOutcome.ok [codes ("aa")] [codes ("인공지능"), codes ("기술")]))
    [codes ("hello")] 2
    (fun mdf mxdf features candidates h => by
      cases h
      decide)


/-! ## C6: the fallback extractor against its specified contract -/

theorem allWords_eq (corpus : List Txt) :
    allWords corpus = corpus.flatMap (fun text =>
      (pySplit (pyLower text)).filter (fun token =>
        decide (token.length > 1) &&
        !STOPWORDS.contains token &&
        !GARBAGE_TOKENS.contains token &&
        !pyIsdigit token &&
        !token.any isDigitCp)) := by
  unfold allWords
  induction corpus with
  | nil => rfl
  | cons text rest ih =>
    simp only [List.flatMap_cons]
    rw [ih]
    by_cases h : text.isEmpty
    · have : text = [] := by simpa using h
      subst this
      rfl
    · have : text.isEmpty = false := by simpa using h
      rw [this]
      rfl

/-- C6 counterexample: on the corpus `["ai ai"]` with `k = 5` the code's
fallback extractor returns `[]`, while the claimed contract ("no other token
is excluded") yields `["ai"]`: the code additionally filters through
`['ai','rss','xml','json','api','http','www']` after ranking. -/
theorem fallback_contract_counterexample :
    fallback_keyword_extraction [codes ("ai ai")] 5 = [] ∧
      fallback_spec [codes ("ai ai")] 5 = [codes ("ai")] := by
  constructor
  · decide
  · decide

/-- C6 (amended): the fallback extractor behaves exactly as the claimed
contract amended with the post-ranking steps the code performs — keep only
the `2*k` most frequent tokens, drop tokens in
`{'ai','rss','xml','json','api','http','www'}` (with a redundant
length/digit re-check), and return the first `k` survivors. -/
theorem fallback_matches_amended_contract (corpus : List Txt) (k : Nat) :
    fallback_keyword_extraction corpus k = fallback_spec_amended corpus k := by
  unfold fallback_keyword_extraction fallback_spec_amended
  rw [← allWords_eq, Nat.mul_comm 2 k]
  by_cases h : (allWords corpus).isEmpty
  · have hnil : allWords corpus = [] := by simpa using h
    rw [h, hnil]
    simp [most_common, dedupGo]
  · have h2 : (allWords corpus).isEmpty = false := by simpa using h
    rw [h2]
    rfl

/-! ## C2: the token invariant of returned topic/keyword lists -/

theorem fallback_mem_inv (corpus : List Txt) (k : Nat) :
    ∀ w ∈ fallback_keyword_extraction corpus k, fallbackInv w := by
  intro w hw
  unfold fallback_keyword_extraction at hw
  split at hw
  · simp at hw
  · have hw2 := List.mem_of_mem_take hw
    have hfin := List.of_mem_filter hw2
    have hmc := List.mem_filter.mp hw2 |>.1
    have hsub := most_common_subset _ _ _ hmc
    unfold allWords at hsub
    rcases List.mem_flatMap.mp hsub with ⟨text, _, hmem⟩
    have htok : fallbackTokOk w = true := by
      by_cases hemp : text.isEmpty
      · rw [hemp] at hmem
        simp at hmem
      · have : text.isEmpty = false := by simpa using hemp
        rw [this] at hmem
        simp only [Bool.false_eq_true, if_false] at hmem
        exact List.of_mem_filter hmem
    simp only [fallbackTokOk, Bool.and_eq_true, Bool.not_eq_true',
      decide_eq_true_eq] at htok
    simp only [finalOk, Bool.and_eq_true, Bool.not_eq_true',
      decide_eq_true_eq] at hfin
    obtain ⟨⟨⟨⟨hlen, hstop⟩, hgarb⟩, hdig⟩, hany⟩ := htok
    obtain ⟨⟨_, hfin7⟩, _⟩ := hfin
    exact ⟨hlen, hdig, hany, hstop, hgarb, hfin7⟩

/-- C2 counterexample: the fallback extractor returns `"foo-bar"` on the
corpus `["foo-bar foo-bar"]`, and `"foo-bar"` is not composed solely of
Hangul or Latin letters, refuting clause (d) of the claimed invariant. -/
theorem topics_token_invariant_counterexample :
    fallback_keyword_extraction [codes ("foo-bar foo-bar")] 1 = [codes ("foo-bar")] ∧
      (codes ("foo-bar")).all (fun c => isHangulCp c || isAsciiLetterCp c) = false := by
  constructor
  · decide
  · decide

/-- C2 (amended): every fallback keyword has length `> 1`, is not purely
numeric, contains no digit and is in none of the consulted deny lists
(`STOPWORDS`, `GARBAGE_TOKENS`, the seven-token list) but may contain
non-letter characters; every statistical-path topic passes both quality
gates (no garbage substring, length `> 1`, no digits, not in the
four-token list, no gate-2 forbidden word) and — granted the vectorizer's
token pattern `[가-힣a-zA-Z]{2,}` — each of its whitespace-separated words
consists solely of Hangul or Latin letters. -/
theorem topics_token_invariant (vec : Vectorizer) (corpus : List Txt) (k : Nat)
    (hwf : ∀ (mdf : Nat) (mxdf : ℚ) (features candidates : List Txt),
      vec mdf mxdf corpus = TfidfOutcome.ok features candidates →
      ∀ t ∈ candidates, ∀ tok ∈ pySplit t, tok ≠ [] ∧
        tok.all (fun c => isHangulCp c || isLowerCp c) = true) :
    (∀ w ∈ fallback_keyword_extraction corpus k, fallbackInv w) ∧
    (∀ w ∈ top_topics vec corpus k, fallbackInv w ∨ statInv w) := by
  refine ⟨fallback_mem_inv corpus k, ?_⟩
  intro w hw
  unfold top_topics at hw
  split at hw
  · simp at hw
  · split at hw
    · exact Or.inl (fallback_mem_inv corpus k w hw)
    · rename_i features candidates hout
      split at hw
      · exact Or.inl (fallback_mem_inv corpus k w hw)
      · split at hw
        · exact Or.inl (fallback_mem_inv corpus k w hw)
        · right
          unfold gate2Survivors at hw
          have hg2 := List.of_mem_filter hw
          have hw2 := List.mem_filter.mp hw |>.1
          have hw3 := List.mem_of_mem_take hw2
          have hg1 := List.of_mem_filter hw3
          have hcand := List.mem_filter.mp hw3 |>.1
          simp only [gate1, Bool.and_eq_true, Bool.not_eq_true',
            decide_eq_true_eq] at hg1
          simp only [gate2, Bool.not_eq_true', List.any_eq_false,
            Bool.not_eq_true] at hg2
          obtain ⟨hgarbany, ⟨⟨hlen, hisdig⟩, hex4⟩, hdig⟩ := hg1
          rw [List.any_eq_false] at hgarbany
          simp only [Bool.not_eq_true] at hgarbany
          exact ⟨hlen, hisdig, hdig, hex4, hgarbany, hg2,
            hwf _ _ _ _ hout w hcand⟩

/-- Witness for C2 (amended) at a concrete input. -/
theorem topics_token_invariant_witness : fallbackInv (codes ("hello")) :=
  (topics_token_invariant vecExn [codes ("hello hello")] 1
      (fun _ _ _ _ h => nomatch h)).1 (codes ("hello")) (by decide)


/-! ## Tokenisation lemmas (towards C5 and C7) -/

theorem pySplitGo_tokens :
    ∀ (cs acc : Txt), (∀ c ∈ acc, isSpaceCp c = false) →
      ∀ t ∈ pySplitGo acc cs,
        t ≠ [] ∧ ∀ c ∈ t, isSpaceCp c = false ∧ (c ∈ cs ∨ c ∈ acc) := by
  intro cs
  induction cs with
  | nil =>
    intro acc hacc t ht
    unfold pySplitGo at ht
    split at ht
    · simp at ht
    · rename_i hne
      simp only [List.mem_singleton] at ht
      subst ht
      refine ⟨?_, ?_⟩
      · intro hcontra
        rw [List.reverse_eq_nil_iff] at hcontra
        rw [hcontra] at hne
        simp at hne
      · intro c hc
        rw [List.mem_reverse] at hc
        exact ⟨hacc c hc, Or.inr hc⟩
  | cons d rest ih =>
    intro acc hacc t ht
    unfold pySplitGo at ht
    split at ht
    · split at ht
      · have hr := ih [] (by simp) t ht
        refine ⟨hr.1, fun c hc => ⟨(hr.2 c hc).1, ?_⟩⟩
        rcases (hr.2 c hc).2 with h | h
        · exact Or.inl (List.mem_cons_of_mem d h)
        · simp at h
      · rename_i hne
        rcases List.mem_cons.mp ht with h | h
        · subst h
          refine ⟨?_, ?_⟩
          · intro hcontra
            rw [List.reverse_eq_nil_iff] at hcontra
            rw [hcontra] at hne
            simp at hne
          · intro c hc
            rw [List.mem_reverse] at hc
            exact ⟨hacc c hc, Or.inr hc⟩
        · have hr := ih [] (by simp) t h
          refine ⟨hr.1, fun c hc => ⟨(hr.2 c hc).1, ?_⟩⟩
          rcases (hr.2 c hc).2 with h2 | h2
          · exact Or.inl (List.mem_cons_of_mem d h2)
          · simp at h2
    · rename_i hsp
      have hd : isSpaceCp d = false := by simpa using hsp
      have hacc' : ∀ c ∈ d :: acc, isSpaceCp c = false := by
        intro c hc
        rcases List.mem_cons.mp hc with h | h
        · exact h ▸ hd
        · exact hacc c h
      have hr := ih (d :: acc) hacc' t ht
      refine ⟨hr.1, fun c hc => ⟨(hr.2 c hc).1, ?_⟩⟩
      rcases (hr.2 c hc).2 with h | h
      · exact Or.inl (List.mem_cons_of_mem d h)
      · rcases List.mem_cons.mp h with h2 | h2
        · exact Or.inl (h2 ▸ List.mem_cons_self d rest)
        · exact Or.inr h2

theorem pySplit_tokens (s : Txt) :
    ∀ t ∈ pySplit s, t ≠ [] ∧ ∀ c ∈ t, isSpaceCp c = false ∧ c ∈ s := by
  intro t ht
  have h := pySplitGo_tokens s [] (by simp) t ht
  refine ⟨h.1, fun c hc => ⟨(h.2 c hc).1, ?_⟩⟩
  rcases (h.2 c hc).2 with h2 | h2
  · exact h2
  · simp at h2

theorem pySplitGo_append :
    ∀ (t cs acc : Txt), (∀ c ∈ t, isSpaceCp c = false) →
      pySplitGo acc (t ++ cs) = pySplitGo (t.reverse ++ acc) cs := by
  intro t
  induction t with
  | nil => intro cs acc _; simp
  | cons c t' ih =>
    intro cs acc h
    have hc : isSpaceCp c = false := h c (List.mem_cons_self c t')
    show pySplitGo acc (c :: (t' ++ cs)) = _
    conv_lhs => rw [pySplitGo]
    rw [hc]
    simp only [Bool.false_eq_true, if_false]
    rw [ih cs (c :: acc) (fun x hx => h x (List.mem_cons_of_mem c hx))]
    congr 1
    simp [List.append_assoc]

theorem pySplitGo_joinSpTail :
    ∀ (ts : List Txt) (acc : Txt), acc ≠ [] →
      (∀ t ∈ ts, t ≠ [] ∧ ∀ c ∈ t, isSpaceCp c = false) →
      pySplitGo acc (joinSpTail ts) = acc.reverse :: ts := by
  intro ts
  induction ts with
  | nil =>
    intro acc hacc _
    unfold joinSpTail pySplitGo
    have : acc.isEmpty = false := by simpa [List.isEmpty_iff] using hacc
    rw [this]
    simp
  | cons t ts' ih =>
    intro acc hacc h
    unfold joinSpTail
    show pySplitGo acc (32 :: (t ++ joinSpTail ts')) = _
    unfold pySplitGo
    have h32 : isSpaceCp 32 = true := by decide
    rw [h32]
    have hne : acc.isEmpty = false := by simpa [List.isEmpty_iff] using hacc
    rw [hne]
    simp only [if_true, Bool.false_eq_true, if_false]
    rw [pySplitGo_append t _ [] (h t (List.mem_cons_self t ts')).2, List.append_nil]
    rw [ih t.reverse
      (by simpa [List.reverse_eq_nil_iff] using (h t (List.mem_cons_self t ts')).1)
      (fun x hx => h x (List.mem_cons_of_mem t hx))]
    simp

theorem pySplit_joinSp :
    ∀ ts : List Txt, (∀ t ∈ ts, t ≠ [] ∧ ∀ c ∈ t, isSpaceCp c = false) →
      pySplit (joinSp ts) = ts := by
  intro ts h
  cases ts with
  | nil => rfl
  | cons t ts' =>
    show pySplitGo [] (t ++ joinSpTail ts') = _
    rw [pySplitGo_append t _ [] (h t (List.mem_cons_self t ts')).2, List.append_nil]
    rw [pySplitGo_joinSpTail ts' t.reverse
      (by simpa [List.reverse_eq_nil_iff] using (h t (List.mem_cons_self t ts')).1)
      (fun x hx => h x (List.mem_cons_of_mem t hx))]
    simp

theorem joinSpTail_chars :
    ∀ (ts : List Txt) (c : Nat), c ∈ joinSpTail ts → c = 32 ∨ ∃ t ∈ ts, c ∈ t := by
  intro ts
  induction ts with
  | nil => intro c hc; simp [joinSpTail] at hc
  | cons t ts' ih =>
    intro c hc
    unfold joinSpTail at hc
    rcases List.mem_cons.mp hc with h | h
    · exact Or.inl h
    · rcases List.mem_append.mp h with h2 | h2
      · exact Or.inr ⟨t, List.mem_cons_self t ts', h2⟩
      · rcases ih c h2 with h3 | ⟨t', ht', hc'⟩
        · exact Or.inl h3
        · exact Or.inr ⟨t', List.mem_cons_of_mem t ht', hc'⟩

theorem joinSp_chars :
    ∀ (ts : List Txt) (c : Nat), c ∈ joinSp ts → c = 32 ∨ ∃ t ∈ ts, c ∈ t := by
  intro ts c hc
  cases ts with
  | nil => simp [joinSp] at hc
  | cons t ts' =>
    unfold joinSp at hc
    rcases List.mem_append.mp hc with h | h
    · exact Or.inr ⟨t, List.mem_cons_self t ts', h⟩
    · rcases joinSpTail_chars ts' c h with h2 | ⟨t', ht', hc'⟩
      · exact Or.inl h2
      · exact Or.inr ⟨t', List.mem_cons_of_mem t ht', hc'⟩


/-! ## Identity of the cleaning stages on already-clean text -/

theorem map_id_on {f : Nat → Nat} :
    ∀ t : Txt, (∀ c ∈ t, f c = c) → t.map f = t := by
  intro t h
  induction t with
  | nil => rfl
  | cons c rest ih =>
    simp only [List.map_cons]
    rw [h c (List.mem_cons_self c rest), ih (fun x hx => h x (List.mem_cons_of_mem c hx))]

theorem subScanF_id (m : Txt → Option Txt) :
    ∀ (fuel : Nat) (cs : Txt), cs.length ≤ fuel →
      (∀ l : Txt, l ≠ [] → l.IsSuffix cs → m l = none) →
      subScanF m fuel cs = cs := by
  intro fuel
  induction fuel with
  | zero =>
    intro cs hlen _
    have : cs = [] := by
      cases cs with
      | nil => rfl
      | cons c rest => simp at hlen
    subst this
    rfl
  | succ fuel ih =>
    intro cs hlen hnone
    cases cs with
    | nil => rfl
    | cons c rest =>
      have hm : m (c :: rest) = none :=
        hnone (c :: rest) (by simp) (List.suffix_refl _)
      simp only [subScanF]
      rw [hm]
      have hrest : rest.IsSuffix (c :: rest) := List.suffix_cons c rest
      rw [ih rest (by simp at hlen; omega)
        (fun l hne hsuf => hnone l hne (hsuf.trans hrest))]

theorem subScan_id (m : Txt → Option Txt) (cs : Txt)
    (hnone : ∀ l : Txt, l ≠ [] → l.IsSuffix cs → m l = none) :
    subScan m cs = cs :=
  subScanF_id m cs.length cs (Nat.le_refl _) hnone

theorem tagMatch_none (cs : Txt) (h : (60 : Nat) ∉ cs) : tagMatch cs = none := by
  unfold tagMatch
  split
  · rename_i rest
    simp at h
  · rfl

theorem entityMatch_none (cs : Txt) (h : (38 : Nat) ∉ cs) : entityMatch cs = none := by
  unfold entityMatch
  split
  · rename_i rest
    simp at h
  · rfl

theorem litDrop_mem_lit :
    ∀ (lit cs r : Txt), litDrop lit cs = some r → ∀ x ∈ lit, x ∈ cs := by
  intro lit
  induction lit with
  | nil => intro cs r _ x hx; simp at hx
  | cons l ls ih =>
    intro cs r h x hx
    cases cs with
    | nil => simp [litDrop] at h
    | cons c cs' =>
      unfold litDrop at h
      split at h
      · rename_i hcl
        rcases List.mem_cons.mp hx with h2 | h2
        · subst h2
          exact hcl ▸ List.mem_cons_self c cs'
        · exact List.mem_cons_of_mem c (ih cs' r h x h2)
      · exact absurd h (by simp)

theorem litDrop_sub :
    ∀ (lit cs r : Txt), litDrop lit cs = some r → ∀ x ∈ r, x ∈ cs := by
  intro lit
  induction lit with
  | nil =>
    intro cs r h x hx
    cases h
    exact hx
  | cons l ls ih =>
    intro cs r h x hx
    cases cs with
    | nil => simp [litDrop] at h
    | cons c cs' =>
      unfold litDrop at h
      split at h
      · exact List.mem_cons_of_mem c (ih cs' r h x hx)
      · exact absurd h (by simp)

theorem urlMatch_mem (cs r : Txt) (h : urlMatch cs = some r) : (58 : Nat) ∈ cs := by
  unfold urlMatch at h
  split at h
  · exact absurd h (by simp)
  · rename_i r1 h1
    split at h
    · rename_i t h2
      have : (58 : Nat) ∈ r1 :=
        litDrop_mem_lit _ _ _ h2 58 (by decide)
      exact litDrop_sub _ _ _ h1 58 this
    · split at h
      · rename_i t h3
        have : (58 : Nat) ∈ r1 :=
          litDrop_mem_lit _ _ _ h3 58 (by decide)
        exact litDrop_sub _ _ _ h1 58 this
      · exact absurd h (by simp)

theorem urlMatch_none (cs : Txt) (h : (58 : Nat) ∉ cs) : urlMatch cs = none := by
  cases hm : urlMatch cs with
  | none => rfl
  | some r => exact absurd (urlMatch_mem cs r hm) h

theorem wwwMatch_mem (cs r : Txt) (h : wwwMatch cs = some r) : (46 : Nat) ∈ cs := by
  unfold wwwMatch at h
  split at h
  · rename_i t h1
    exact litDrop_mem_lit _ _ _ h1 46 (by decide)
  · exact absurd h (by simp)

theorem wwwMatch_none (cs : Txt) (h : (46 : Nat) ∉ cs) : wwwMatch cs = none := by
  cases hm : wwwMatch cs with
  | none => rfl
  | some r => exact absurd (wwwMatch_mem cs r hm) h

theorem emailMatch_mem (cs r : Txt) (h : emailMatch cs = some r) : (64 : Nat) ∈ cs := by
  unfold emailMatch at h
  split at h
  · exact absurd h (by simp)
  · split at h
    · rename_i rest hdrop
      have h64 : (64 : Nat) ∈ cs.drop (cs.takeWhile isLocalCp).length := by
        rw [hdrop]
        exact List.mem_cons_self 64 rest
      exact List.drop_subset _ _ h64
    · exact absurd h (by simp)

theorem emailMatch_none (cs : Txt) (h : (64 : Nat) ∉ cs) : emailMatch cs = none := by
  cases hm : emailMatch cs with
  | none => rfl
  | some r => exact absurd (emailMatch_mem cs r hm) h

theorem digitStripGo_id :
    ∀ cs : Txt, (∀ c ∈ cs, isDigitCp c = false) → ∀ b, digitStripGo b [] cs = cs := by
  intro cs
  induction cs with
  | nil => intro _ b; rfl
  | cons c rest ih =>
    intro h b
    have hc : isDigitCp c = false := h c (List.mem_cons_self c rest)
    unfold digitStripGo
    rw [hc]
    simp only [Bool.false_eq_true, if_false, List.isEmpty_nil, if_true]
    rw [ih (fun x hx => h x (List.mem_cons_of_mem c hx)) (isWordCp c)]


theorem wsCollapseGo_append :
    ∀ (t : Txt) (b : Bool) (cs : Txt), (∀ c ∈ t, isSpaceCp c = false) →
      wsCollapseGo b (t ++ cs) = t ++ wsCollapseGo (if t.isEmpty then b else false) cs := by
  intro t
  induction t with
  | nil => intro b cs _; simp
  | cons c t' ih =>
    intro b cs h
    have hc : isSpaceCp c = false := h c (List.mem_cons_self c t')
    show wsCollapseGo b (c :: (t' ++ cs)) = _
    conv_lhs => rw [wsCollapseGo]
    rw [hc]
    simp only [Bool.false_eq_true, if_false]
    rw [ih false cs (fun x hx => h x (List.mem_cons_of_mem c hx))]
    have h1 : (if t'.isEmpty then false else false) = false := by
      cases t'.isEmpty <;> rfl
    rw [h1]
    simp [List.cons_append]

theorem wsCollapseGo_joinSpTail :
    ∀ ts : List Txt, (∀ t ∈ ts, t ≠ [] ∧ ∀ c ∈ t, isSpaceCp c = false) →
      wsCollapseGo false (joinSpTail ts) = joinSpTail ts := by
  intro ts
  induction ts with
  | nil => intro _; rfl
  | cons t ts' ih =>
    intro h
    show wsCollapseGo false (32 :: (t ++ joinSpTail ts')) = 32 :: (t ++ joinSpTail ts')
    unfold wsCollapseGo
    have h32 : isSpaceCp 32 = true := by decide
    rw [h32]
    simp only [if_true, Bool.false_eq_true, if_false]
    rw [wsCollapseGo_append t true (joinSpTail ts')
      (h t (List.mem_cons_self t ts')).2]
    have hne : t.isEmpty = false := by
      simpa [List.isEmpty_iff] using (h t (List.mem_cons_self t ts')).1
    rw [hne]
    simp only [Bool.false_eq_true, if_false]
    rw [ih (fun x hx => h x (List.mem_cons_of_mem t hx))]

theorem wsCollapse_joinSp (ts : List Txt)
    (h : ∀ t ∈ ts, t ≠ [] ∧ ∀ c ∈ t, isSpaceCp c = false) :
    wsCollapse (joinSp ts) = joinSp ts := by
  cases ts with
  | nil => rfl
  | cons t ts' =>
    show wsCollapseGo false (t ++ joinSpTail ts') = t ++ joinSpTail ts'
    rw [wsCollapseGo_append t false (joinSpTail ts')
      (h t (List.mem_cons_self t ts')).2]
    have : (if t.isEmpty then false else false) = false := by
      cases t.isEmpty <;> rfl
    rw [this]
    rw [wsCollapseGo_joinSpTail ts' (fun x hx => h x (List.mem_cons_of_mem t hx))]

theorem dropWhile_id_of_head (p : Nat → Bool) (cs : Txt)
    (h : ∀ c, cs.head? = some c → p c = false) : cs.dropWhile p = cs := by
  cases cs with
  | nil => rfl
  | cons c rest =>
    apply List.dropWhile_cons_of_neg
    simp [h c rfl]

theorem pyStrip_id (cs : Txt)
    (hhead : ∀ c, cs.head? = some c → isSpaceCp c = false)
    (hlast : ∀ c, cs.getLast? = some c → isSpaceCp c = false) : pyStrip cs = cs := by
  unfold pyStrip
  rw [dropWhile_id_of_head _ cs hhead]
  rw [dropWhile_id_of_head _ cs.reverse
    (fun c hc => hlast c (by rwa [List.head?_reverse] at hc))]
  exact List.reverse_reverse cs

theorem joinSp_cons_ne_nil (t : Txt) (ts : List Txt) (h : t ≠ []) :
    joinSp (t :: ts) ≠ [] := by
  show t ++ joinSpTail ts ≠ []
  exact List.append_ne_nil_of_left_ne_nil h _

theorem joinSp_head?_mem :
    ∀ (t : Txt) (ts : List Txt) (c : Nat), t ≠ [] →
      (joinSp (t :: ts)).head? = some c → c ∈ t := by
  intro t ts c ht h
  cases t with
  | nil => exact absurd rfl ht
  | cons d t'' =>
    have : (joinSp ((d :: t'') :: ts)).head? = some d := by
      show ((d :: t'') ++ joinSpTail ts).head? = some d
      simp
    rw [this] at h
    injection h with h2
    exact h2 ▸ List.mem_cons_self d t''

theorem joinSp_getLast?_mem :
    ∀ (ts : List Txt), (∀ t ∈ ts, t ≠ []) → ts ≠ [] →
      ∃ d, (joinSp ts).getLast? = some d ∧ ∃ t ∈ ts, d ∈ t := by
  intro ts
  induction ts with
  | nil => intro _ h; exact absurd rfl h
  | cons t ts' ih =>
    intro hne _
    cases ts' with
    | nil =>
      have ht : t ≠ [] := hne t (List.mem_cons_self t [])
      have hsome : (t.getLast?).isSome := List.getLast?_isSome.mpr ht
      obtain ⟨d, hd⟩ := Option.isSome_iff_exists.mp hsome
      refine ⟨d, ?_, t, List.mem_cons_self t [], List.mem_of_getLast?_eq_some hd⟩
      show (t ++ joinSpTail []).getLast? = some d
      simpa [joinSpTail] using hd
    | cons t' ts'' =>
      obtain ⟨d, hd, t0, ht0, hmem⟩ := ih
        (fun x hx => hne x (List.mem_cons_of_mem t hx)) (by simp)
      refine ⟨d, ?_, t0, List.mem_cons_of_mem t ht0, hmem⟩
      show (t ++ joinSpTail (t' :: ts'')).getLast? = some d
      have hjne : joinSp (t' :: ts'') ≠ [] :=
        joinSp_cons_ne_nil t' ts'' (hne t' (List.mem_cons_of_mem t (List.mem_cons_self t' ts'')))
      have htail : joinSpTail (t' :: ts'') = 32 :: joinSp (t' :: ts'') := rfl
      rw [htail]
      rw [List.getLast?_append_of_ne_nil _ (by simp)]
      cases hj : joinSp (t' :: ts'') with
      | nil => exact absurd hj hjne
      | cons x xs =>
        rw [List.getLast?_cons_cons]
        rw [hj] at hd
        exact hd

theorem pyLowerCp_id_of_good (c : Nat)
    (h : c = 32 ∨ isLowerCp c = true ∨ isHangulCp c = true) : pyLowerCp c = c := by
  simp only [isLowerCp, isHangulCp, decide_eq_true_eq] at h
  unfold pyLowerCp
  rw [if_neg]
  omega

theorem pyLowerCp_not_upper (d : Nat) : isUpperCp (pyLowerCp d) = false := by
  unfold pyLowerCp
  split
  · rename_i h
    simp only [isUpperCp, decide_eq_false_iff_not]
    omega
  · rename_i h
    simp only [isUpperCp, decide_eq_false_iff_not]
    omega


/-- On a space-joined list of nonempty tokens made of lowercase Latin or
Hangul characters, every step of `cleanStage` is the identity. -/
theorem cleanStage_id (u : Txt → Txt) (hu : UnescapeOK u) (ts : List Txt)
    (hts : ∀ t ∈ ts, t ≠ [] ∧ ∀ c ∈ t, (isLowerCp c || isHangulCp c) = true) :
    cleanStage u (joinSp ts) = joinSp ts := by
  have hrange : ∀ c ∈ joinSp ts,
      c = 32 ∨ (97 ≤ c ∧ c ≤ 122) ∨ (44032 ≤ c ∧ c ≤ 55203) := by
    intro c hc
    rcases joinSp_chars ts c hc with h | ⟨t, ht, hct⟩
    · exact Or.inl h
    · have h2 := (hts t ht).2 c hct
      simp only [isLowerCp, isHangulCp, Bool.or_eq_true, decide_eq_true_eq] at h2
      exact Or.inr h2
  have hno : ∀ x : Nat, x ≠ 32 → x < 97 → x ∉ joinSp ts := by
    intro x hne hlt hmem
    rcases hrange x hmem with h | h | h <;> omega
  have hts' : ∀ t ∈ ts, t ≠ [] ∧ ∀ c ∈ t, isSpaceCp c = false := by
    intro t ht
    refine ⟨(hts t ht).1, fun c hc => ?_⟩
    have h2 := (hts t ht).2 c hc
    simp only [isLowerCp, isHangulCp, Bool.or_eq_true, decide_eq_true_eq] at h2
    simp only [isSpaceCp, decide_eq_false_iff_not]
    omega
  have hda : tagStrip (joinSp ts) = joinSp ts :=
    subScan_id _ _ (fun l _ hsuf => tagMatch_none l
      (fun hx => hno 60 (by omega) (by omega) (hsuf.subset hx)))
  have hdb : entityStrip (joinSp ts) = joinSp ts :=
    subScan_id _ _ (fun l _ hsuf => entityMatch_none l
      (fun hx => hno 38 (by omega) (by omega) (hsuf.subset hx)))
  have hdc : urlStrip (joinSp ts) = joinSp ts :=
    subScan_id _ _ (fun l _ hsuf => urlMatch_none l
      (fun hx => hno 58 (by omega) (by omega) (hsuf.subset hx)))
  have hdd : wwwStrip (joinSp ts) = joinSp ts :=
    subScan_id _ _ (fun l _ hsuf => wwwMatch_none l
      (fun hx => hno 46 (by omega) (by omega) (hsuf.subset hx)))
  have hde : emailStrip (joinSp ts) = joinSp ts :=
    subScan_id _ _ (fun l _ hsuf => emailMatch_none l
      (fun hx => hno 64 (by omega) (by omega) (hsuf.subset hx)))
  have hdf : charFilter (joinSp ts) = joinSp ts := by
    apply map_id_on
    intro c hc
    have hcond : (isWordCp c || isSpaceCp c || isHangulCp c) = true := by
      have h := hrange c hc
      simp only [isWordCp, isAsciiLetterCp, isLowerCp, isUpperCp, isDigitCp,
        isHangulCp, isSpaceCp, Bool.or_eq_true, decide_eq_true_eq]
      omega
    rw [hcond]
    rfl
  have hdg : digitStrip (joinSp ts) = joinSp ts := by
    apply digitStripGo_id
    intro c hc
    simp only [isDigitCp, decide_eq_false_iff_not]
    rcases hrange c hc with h | h | h <;> omega
  have hdh : wsCollapse (joinSp ts) = joinSp ts := wsCollapse_joinSp ts hts'
  have hdi : pyStrip (joinSp ts) = joinSp ts := by
    apply pyStrip_id
    · intro c hc
      cases ts with
      | nil => simp [joinSp] at hc
      | cons t ts' =>
        have := joinSp_head?_mem t ts' c (hts' t (List.mem_cons_self t ts')).1 hc
        exact (hts' t (List.mem_cons_self t ts')).2 c this
    · intro c hc
      cases ts with
      | nil => simp [joinSp] at hc
      | cons t ts' =>
        obtain ⟨d, hd, t0, ht0, hmem⟩ := joinSp_getLast?_mem (t :: ts')
          (fun x hx => (hts' x hx).1) (by simp)
        rw [hd] at hc
        injection hc with hc2
        exact hc2 ▸ (hts' t0 ht0).2 d hmem
  unfold cleanStage
  rw [hu _ (hno 38 (by omega) (by omega)), hda, hdb, hdc, hdd, hde, hdf, hdg, hdh, hdi]

/-- On such a token list the lowercasing step is also the identity. -/
theorem pyLower_joinSp_id (ts : List Txt)
    (hts : ∀ t ∈ ts, t ≠ [] ∧ ∀ c ∈ t, (isLowerCp c || isHangulCp c) = true) :
    pyLower (joinSp ts) = joinSp ts := by
  apply map_id_on
  intro c hc
  apply pyLowerCp_id_of_good
  rcases joinSp_chars ts c hc with h | ⟨t, ht, hct⟩
  · exact Or.inl h
  · have h2 := (hts t ht).2 c hct
    simp only [Bool.or_eq_true] at h2
    exact Or.inr h2

/-- Re-normalising a space-join of clean, filter-surviving tokens returns it
unchanged. -/
theorem normalize_joinSp (u : Txt → Txt) (hu : UnescapeOK u) (ts : List Txt)
    (hpass : ∀ t ∈ ts, tokenPass t = true)
    (hts : ∀ t ∈ ts, t ≠ [] ∧ ∀ c ∈ t, (isLowerCp c || isHangulCp c) = true) :
    normalize_for_topics u (joinSp ts) = joinSp ts := by
  cases ts with
  | nil => rfl
  | cons t ts' =>
    have hne : (joinSp (t :: ts')).isEmpty = false := by
      simpa [List.isEmpty_iff] using
        joinSp_cons_ne_nil t ts' (hts t (List.mem_cons_self t ts')).1
    unfold normalize_for_topics
    rw [hne]
    simp only [Bool.false_eq_true, if_false]
    rw [cleanStage_id u hu (t :: ts') hts, pyLower_joinSp_id (t :: ts') hts]
    have hts' : ∀ x ∈ t :: ts', x ≠ [] ∧ ∀ c ∈ x, isSpaceCp c = false := by
      intro x hx
      refine ⟨(hts x hx).1, fun c hc => ?_⟩
      have h2 := (hts x hx).2 c hc
      simp only [isLowerCp, isHangulCp, Bool.or_eq_true, decide_eq_true_eq] at h2
      simp only [isSpaceCp, decide_eq_false_iff_not]
      omega
    rw [pySplit_joinSp (t :: ts') hts']
    rw [List.filter_eq_self.mpr hpass]

/-- C5: `normalize_for_topics` is idempotent — re-normalising its output
changes nothing, for every `html.unescape` function that is the identity on
`'&'`-free strings (as CPython's is). -/
theorem normalize_for_topics_idempotent (u : Txt → Txt) (hu : UnescapeOK u) :
    ∀ x : Txt, normalize_for_topics u (normalize_for_topics u x)
      = normalize_for_topics u x := by
  intro x
  cases hx : x.isEmpty with
  | true =>
    have h0 : normalize_for_topics u x = [] := by
      unfold normalize_for_topics
      rw [hx]
      rfl
    rw [h0]
    rfl
  | false =>
    have hout : normalize_for_topics u x
        = joinSp ((pySplit (pyLower (cleanStage u x))).filter tokenPass) := by
      unfold normalize_for_topics
      rw [hx]
      simp only [Bool.false_eq_true, if_false]
    rw [hout]
    apply normalize_joinSp u hu
    · intro t ht
      exact List.of_mem_filter ht
    · intro t ht
      have hsp := (List.mem_filter.mp ht).1
      have htk := pySplit_tokens (pyLower (cleanStage u x)) t hsp
      have hpass := List.of_mem_filter ht
      simp only [tokenPass, Bool.and_eq_true] at hpass
      have hall := hpass.2.2
      rw [List.all_eq_true] at hall
      refine ⟨htk.1, fun c hc => ?_⟩
      have hletters := hall c hc
      have himg : c ∈ pyLower (cleanStage u x) := (htk.2 c hc).2
      rcases List.mem_map.mp himg with ⟨d, _, hd⟩
      have hnup : isUpperCp c = false := hd ▸ pyLowerCp_not_upper d
      simp only [isHangulCp, isAsciiLetterCp, isLowerCp, isUpperCp,
        Bool.or_eq_true, decide_eq_true_eq] at hletters
      simp only [isUpperCp, decide_eq_false_iff_not] at hnup
      simp only [isLowerCp, isHangulCp, Bool.or_eq_true, decide_eq_true_eq]
      omega

/-- Witness for C5 at a concrete input. -/
theorem normalize_for_topics_idempotent_witness :
    UnescapeOK (fun s => s) ∧
      normalize_for_topics (fun s => s)
          (normalize_for_topics (fun s => s) (codes ("Hello <b>World</b> 123 test")))
        = normalize_for_topics (fun s => s) (codes ("Hello <b>World</b> 123 test")) :=
  ⟨fun _ _ => rfl,
    normalize_for_topics_idempotent (fun s => s) (fun _ _ => rfl)
      (codes ("Hello <b>World</b> 123 test"))⟩


/-! ## C7: denylist exclusion -/

theorem tokens_clean_nonspace (ts : List Txt)
    (hts : ∀ t ∈ ts, t ≠ [] ∧ ∀ c ∈ t, (isLowerCp c || isHangulCp c) = true) :
    ∀ t ∈ ts, t ≠ [] ∧ ∀ c ∈ t, isSpaceCp c = false := by
  intro t ht
  refine ⟨(hts t ht).1, fun c hc => ?_⟩
  have h2 := (hts t ht).2 c hc
  simp only [isLowerCp, isHangulCp, Bool.or_eq_true, decide_eq_true_eq] at h2
  simp only [isSpaceCp, decide_eq_false_iff_not]
  omega

/-- Every entry of `GARBAGE_TOKENS ∪ STOPWORDS` is a nonempty string of
lowercase Latin or Hangul characters and differs from `hello` / `world`. -/
theorem union_tokens_clean :
    ∀ t ∈ GARBAGE_TOKENS ++ STOPWORDS,
      t ≠ [] ∧ t.all (fun c => isLowerCp c || isHangulCp c) = true ∧
        t ≠ codes ("hello") ∧ t ≠ codes ("world") := by
  decide

theorem tokenPass_deny (t : Txt) (ht : t ∈ GARBAGE_TOKENS ++ STOPWORDS) :
    tokenPass t = false := by
  rcases List.mem_append.mp ht with h | h
  · have hc : GARBAGE_TOKENS.contains t = true := List.elem_iff.mpr h
    unfold tokenPass
    rw [hc]
    simp
  · have hc : STOPWORDS.contains t = true := List.elem_iff.mpr h
    unfold tokenPass
    rw [hc]
    simp

theorem mk_input_shape (t : Txt) :
    codes ("hello ") ++ t ++ codes (" world")
      = joinSp [codes ("hello"), t, codes ("world")] := by
  have h1 : codes ("hello ") = codes ("hello") ++ [32] := by decide
  have h2 : codes (" world") = 32 :: codes ("world") := by decide
  rw [h1, h2]
  show _ = codes ("hello") ++ joinSpTail [t, codes ("world")]
  simp [joinSpTail, List.append_assoc]

/-- C7: no token of `GARBAGE_TOKENS ∪ STOPWORDS` survives as a standalone
token of `normalize_for_topics ("hello " + t + " world")`. -/
theorem denylist_excluded (u : Txt → Txt) (hu : UnescapeOK u) :
    ∀ t ∈ GARBAGE_TOKENS ++ STOPWORDS,
      t ∉ pySplit (normalize_for_topics u
        (codes ("hello ") ++ t ++ codes (" world"))) := by
  intro t ht
  obtain ⟨hne, hall, hh, hw⟩ := union_tokens_clean t ht
  rw [List.all_eq_true] at hall
  have hts : ∀ x ∈ [codes ("hello"), t, codes ("world")],
      x ≠ [] ∧ ∀ c ∈ x, (isLowerCp c || isHangulCp c) = true := by
    intro x hx
    simp only [List.mem_cons, List.mem_singleton, List.not_mem_nil, or_false] at hx
    rcases hx with h | h | h
    · subst h
      exact ⟨by decide, by decide⟩
    · subst h
      exact ⟨hne, hall⟩
    · subst h
      exact ⟨by decide, by decide⟩
  rw [mk_input_shape t]
  have hnne : (joinSp [codes ("hello"), t, codes ("world")]).isEmpty = false := by
    simpa [List.isEmpty_iff] using
      joinSp_cons_ne_nil (codes ("hello")) [t, codes ("world")] (by decide)
  have hnorm : normalize_for_topics u (joinSp [codes ("hello"), t, codes ("world")])
      = joinSp ((pySplit (pyLower (cleanStage u
          (joinSp [codes ("hello"), t, codes ("world")])))).filter tokenPass) := by
    unfold normalize_for_topics
    rw [hnne]
    simp only [Bool.false_eq_true, if_false]
  rw [hnorm]
  rw [cleanStage_id u hu _ hts, pyLower_joinSp_id _ hts]
  rw [pySplit_joinSp _ (tokens_clean_nonspace _ hts)]
  have hfilter : List.filter tokenPass [codes ("hello"), t, codes ("world")]
      = [codes ("hello"), codes ("world")] := by
    rw [List.filter_cons, List.filter_cons, List.filter_cons]
    rw [tokenPass_deny t ht]
    rw [(by decide : tokenPass (codes ("hello")) = true)]
    rw [(by decide : tokenPass (codes ("world")) = true)]
    simp
  rw [hfilter]
  rw [pySplit_joinSp [codes ("hello"), codes ("world")] (by decide)]
  simp only [List.mem_cons, List.mem_singleton, List.not_mem_nil, or_false]
  intro hcontra
  rcases hcontra with h | h
  · exact hh h
  · exact hw h

/-- Witness for C7 at a concrete input. -/
theorem denylist_excluded_witness :
    UnescapeOK (fun s => s) ∧
      codes ("nbsp") ∉ pySplit (normalize_for_topics (fun s => s)
        (codes ("hello ") ++ codes ("nbsp") ++ codes (" world"))) :=
  ⟨fun _ _ => rfl,
    denylist_excluded (fun s => s) (fun _ _ => rfl) (codes ("nbsp")) (by decide)⟩


end Trendbot
